import Mathlib

/-!
Verification of the template scanner `template_dfa` (src/src/template.cpp).

The scanner is a byte-level deterministic finite automaton that splits a
template document into alternating markup / code pieces, delimited by the
two-byte sequences `\x7b\x7b` and `\x7d\x7d`.  We embed the automaton
shallowly: documents are lists of characters, the loop state carries the
DFA state, the start index of the current piece, and the accumulated
pieces, exactly as the C source does.
-/

namespace TemplateDfa

/-- A document (and a piece of one) is a sequence of bytes, modelled as
characters; every byte the automaton dispatches on is single-byte ASCII. -/
abbrev Doc := List Char

/-- The single-quote character (ASCII 39). -/
def quote1 : Char := Char.ofNat 39

/-- The double-quote character (ASCII 34). -/
def quote2 : Char := Char.ofNat 34

/-- The backslash character (ASCII 92). -/
def bslash : Char := Char.ofNat 92

/-- The backtick character (ASCII 96). -/
def btick : Char := Char.ofNat 96

/-- The newline character (ASCII 10). -/
def nl : Char := Char.ofNat 10

/-- The states of the scanner's automaton, named as in the C `enum State`. -/
inductive State where
  | html
  | code
  | html_oneOpenBracket
  | code_oneCloseBracket
  | code_string1
  | code_string1_backslash
  | code_string2
  | code_string2_backslash
  | code_backtick
  | code_backtick_backslash
  | code_percentOp
  | code_comment
  | code_comment_oneCloseBracket
deriving DecidableEq

/-- The mutable loop state of `template_dfa`: the DFA state, the index where
the current (unfinished) piece starts, and the pieces emitted so far. -/
structure LoopSt where
  state : State
  pieceStartIdx : Nat
  pieces : List Doc

/-- `Rf_mkCharLenCE(input + start, len)`: the substring of `l` of length
`len` starting at index `start`. -/
def slice (l : Doc) (start len : Nat) : Doc := (l.drop start).take len

/-- One iteration of the scanning loop: dispatch on the current state and
the byte `c = input[i]`, following the C `switch` statement line by line. -/
def stepIdx (input : Doc) (i : Nat) (st : LoopSt) (c : Char) : LoopSt :=
  match st.state with
  | .html =>
      if c = '{' then { st with state := .html_oneOpenBracket } else st
  | .html_oneOpenBracket =>
      if c = '{' then
        { state := .code
          pieceStartIdx := i + 1
          pieces := st.pieces ++ [slice input st.pieceStartIdx (i - st.pieceStartIdx - 1)] }
      else { st with state := .html }
  | .code =>
      if c = '}' then { st with state := .code_oneCloseBracket }
      else if c = quote1 then { st with state := .code_string1 }
      else if c = quote2 then { st with state := .code_string2 }
      else if c = btick then { st with state := .code_backtick }
      else if c = '%' then { st with state := .code_percentOp }
      else if c = '#' then { st with state := .code_comment }
      else st
  | .code_oneCloseBracket =>
      if c = '}' then
        { state := .html
          pieceStartIdx := i + 1
          pieces := st.pieces ++ [slice input st.pieceStartIdx (i - st.pieceStartIdx - 1)] }
      else { st with state := .code }
  | .code_string1 =>
      if c = bslash then { st with state := .code_string1_backslash }
      else if c = quote1 then { st with state := .code }
      else st
  | .code_string1_backslash => { st with state := .code_string1 }
  | .code_string2 =>
      if c = bslash then { st with state := .code_string2_backslash }
      else if c = quote2 then { st with state := .code }
      else st
  | .code_string2_backslash => { st with state := .code_string2 }
  | .code_backtick =>
      if c = bslash then { st with state := .code_backtick_backslash }
      else if c = btick then { st with state := .code }
      else st
  | .code_backtick_backslash => { st with state := .code_backtick }
  | .code_percentOp =>
      if c = '%' then { st with state := .code } else st
  | .code_comment =>
      if c = '}' then { st with state := .code_comment_oneCloseBracket }
      else if c = nl then { st with state := .code }
      else st
  | .code_comment_oneCloseBracket =>
      if c = '}' then
        { state := .html
          pieceStartIdx := i + 1
          pieces := st.pieces ++ [slice input st.pieceStartIdx (i - st.pieceStartIdx - 1)] }
      else { st with state := .code }

/-- The scanning loop `for (i = 0; i < len; i++)`: `rest` is the suffix of
`input` not yet consumed (`input.drop i`). -/
def runAux (input : Doc) : Doc → Nat → LoopSt → LoopSt
  | [], _, st => st
  | c :: rest, i, st => runAux input rest (i + 1) (stepIdx input i st c)

/-- Run the loop over the whole input from the initial state. -/
def scanRun (input : Doc) : LoopSt :=
  runAux input input 0 ⟨.html, 0, []⟩

/-- The two errors `template_dfa` can raise via `Rf_error`. -/
inductive ScanError where
  | invalidInput
  | unterminatedCode

/-- `template_dfa`: check the input is a single text value, run the DFA,
check the final state, and append the trailing markup piece. -/
def template_dfa (x : List Doc) : Except ScanError (List Doc) :=
  match x with
  | [input] =>
      let fin := scanRun input
      if fin.state = .html ∨ fin.state = .html_oneOpenBracket then
        .ok (fin.pieces ++ [slice input fin.pieceStartIdx (input.length - fin.pieceStartIdx)])
      else .error .unterminatedCode
  | _ => .error .invalidInput

/-- The kind of a piece is positional: even (0-based) indices are markup,
odd indices are code. -/
inductive Kind where
  | markup
  | code

/-- Kind of the piece at position `j` of the returned sequence. -/
def pieceKind (j : Nat) : Kind := if j % 2 = 0 then .markup else .code

/-- The opening delimiter `\x7b\x7b`. -/
def openDelim : Doc := ['{', '{']

/-- The closing delimiter `\x7d\x7d`. -/
def closeDelim : Doc := ['}', '}']

/-- Concatenate a piece list, reinserting the two-byte delimiter consumed
after each listed piece: `\x7b\x7b` after a markup (even-index) piece,
`\x7d\x7d` after a code (odd-index) piece.  `n` is the index of the first
listed piece. -/
def withDelims : Nat → List Doc → Doc
  | _, [] => []
  | n, p :: rest => p ++ (if n % 2 = 0 then openDelim else closeDelim) ++ withDelims (n + 1) rest

/-- Reassembly as the specification words it: concatenate the pieces in
order, reinserting `\x7b\x7b` at each markup-to-code boundary and
`\x7d\x7d` at each code-to-markup boundary (no delimiter after the final
piece).  `n` is the index of the first listed piece. -/
def reassemble : Nat → List Doc → Doc
  | _, [] => []
  | _, [p] => p
  | n, p :: q :: rest =>
      p ++ (if n % 2 = 0 then openDelim else closeDelim) ++ reassemble (n + 1) (q :: rest)

/-- States in which the scanner is outside a code region. -/
def isMarkupState : State → Bool
  | .html => true
  | .html_oneOpenBracket => true
  | .code => false
  | .code_oneCloseBracket => false
  | .code_string1 => false
  | .code_string1_backslash => false
  | .code_string2 => false
  | .code_string2_backslash => false
  | .code_backtick => false
  | .code_backtick_backslash => false
  | .code_percentOp => false
  | .code_comment => false
  | .code_comment_oneCloseBracket => false

/-- The delimiter byte consumed but not yet resolved in the three
"saw one bracket" states. -/
def pendingBrace : State → Option Char
  | .html => none
  | .html_oneOpenBracket => some '{'
  | .code => none
  | .code_oneCloseBracket => some '}'
  | .code_string1 => none
  | .code_string1_backslash => none
  | .code_string2 => none
  | .code_string2_backslash => none
  | .code_backtick => none
  | .code_backtick_backslash => none
  | .code_percentOp => none
  | .code_comment => none
  | .code_comment_oneCloseBracket => some '}'

/-- Loop invariant of `template_dfa` after consuming `input.take i`:
the current piece started at or before `i`; the emitted pieces together
with their trailing delimiters account exactly for `input.take
st.pieceStartIdx`; the number of emitted pieces is even exactly in the
markup states; and in a "saw one bracket" state the bracket is the byte
at `i - 1`, strictly after the current piece's start. -/
def Inv (input : Doc) (i : Nat) (st : LoopSt) : Prop :=
  st.pieceStartIdx ≤ i ∧
  withDelims 0 st.pieces = input.take st.pieceStartIdx ∧
  (st.pieces.length % 2 = 0 ↔ isMarkupState st.state = true) ∧
  (∀ b, pendingBrace st.state = some b →
    st.pieceStartIdx + 1 ≤ i ∧ input[i - 1]? = some b)

/-- A loop state that is still scanning the very first markup piece. -/
def MarkupIdle (st : LoopSt) : Prop :=
  (st.state = .html ∨ st.state = .html_oneOpenBracket) ∧
  st.pieceStartIdx = 0 ∧ st.pieces = []

/-- `noDouble a l` holds when `l` has no two adjacent occurrences of `a`,
i.e. no occurrence of the two-byte sequence `a a`. -/
def noDouble (a : Char) : Doc → Bool
  | [] => true
  | [_] => true
  | x :: y :: rest => !(x == a && y == a) && noDouble a (y :: rest)

end TemplateDfa

namespace TemplateDfa

theorem withDelims_snoc (p : Doc) : ∀ (ps : List Doc) (n : Nat),
    withDelims n (ps ++ [p]) =
      withDelims n ps ++ p ++ (if (n + ps.length) % 2 = 0 then openDelim else closeDelim) := by
  intro ps
  induction ps with
  | nil => intro n; simp [withDelims]
  | cons q ps ih =>
      intro n
      have harith : (n + 1) + ps.length = n + (ps.length + 1) := by omega
      simp [withDelims, ih (n + 1), List.append_assoc, harith]

theorem reassemble_snoc (p : Doc) : ∀ (ps : List Doc) (n : Nat),
    reassemble n (ps ++ [p]) = withDelims n ps ++ p := by
  intro ps
  induction ps with
  | nil => intro n; simp [reassemble, withDelims]
  | cons q ps ih =>
      intro n
      cases ps with
      | nil => simp [reassemble, withDelims]
      | cons r ps' =>
          have ih' : reassemble (n + 1) (r :: (ps' ++ [p])) = withDelims (n + 1) (r :: ps') ++ p :=
            ih (n + 1)
          simp [reassemble, withDelims, ih', List.append_assoc]

theorem take_split (input : Doc) (start i : Nat) (b c : Char)
    (hs : start + 1 ≤ i) (hb : input[i - 1]? = some b) (hc : input[i]? = some c) :
    input.take (i + 1) = input.take start ++ slice input start (i - start - 1) ++ [b, c] := by
  have h1 : input.take (i + 1) = input.take i ++ [c] := by
    rw [List.take_succ, hc]; rfl
  have h2 : input.take i = input.take (i - 1) ++ [b] := by
    conv_lhs => rw [show i = (i - 1) + 1 by omega]
    rw [List.take_succ, hb]; rfl
  have h3 : input.take (i - 1) = input.take start ++ slice input start (i - start - 1) := by
    conv_lhs => rw [show i - 1 = start + (i - start - 1) by omega]
    rw [List.take_add]; rfl
  rw [h1, h2, h3]
  simp [List.append_assoc]

theorem Inv_def (input : Doc) (i start : Nat) (s : State) (ps : List Doc) :
    Inv input i ⟨s, start, ps⟩ ↔
      (start ≤ i ∧
       withDelims 0 ps = input.take start ∧
       (ps.length % 2 = 0 ↔ isMarkupState s = true) ∧
       (∀ b, pendingBrace s = some b → start + 1 ≤ i ∧ input[i - 1]? = some b)) :=
  Iff.rfl

theorem Inv_keep (s' : State) {input : Doc} {i start : Nat} {ps : List Doc} {s : State}
    (h : Inv input i ⟨s, start, ps⟩)
    (hm : isMarkupState s' = isMarkupState s)
    (hp : pendingBrace s' = none) :
    Inv input (i + 1) ⟨s', start, ps⟩ := by
  rw [Inv_def] at h
  obtain ⟨h1, h2, h3, _⟩ := h
  rw [Inv_def]
  refine ⟨by omega, h2, by rw [hm]; exact h3, ?_⟩
  intro b hb
  rw [hp] at hb
  cases hb

theorem Inv_pend (s' : State) {input : Doc} {i start : Nat} {ps : List Doc} {s : State}
    {b : Char} (hc : input[i]? = some b)
    (h : Inv input i ⟨s, start, ps⟩)
    (hm : isMarkupState s' = isMarkupState s)
    (hp : pendingBrace s' = some b) :
    Inv input (i + 1) ⟨s', start, ps⟩ := by
  rw [Inv_def] at h
  obtain ⟨h1, h2, h3, _⟩ := h
  rw [Inv_def]
  refine ⟨by omega, h2, by rw [hm]; exact h3, ?_⟩
  intro b' hb'
  rw [hp] at hb'
  injection hb' with hb'
  subst hb'
  exact ⟨by omega, by simpa using hc⟩

theorem Inv_emit (s' : State) {input : Doc} {i start : Nat} {ps : List Doc} {s : State}
    {b : Char} (hc : input[i]? = some b)
    (h : Inv input i ⟨s, start, ps⟩)
    (hpend : pendingBrace s = some b)
    (hbb : (if isMarkupState s = true then openDelim else closeDelim) = [b, b])
    (hm : isMarkupState s' = ! isMarkupState s)
    (hp' : pendingBrace s' = none) :
    Inv input (i + 1) ⟨s', i + 1, ps ++ [slice input start (i - start - 1)]⟩ := by
  rw [Inv_def] at h
  obtain ⟨h1, h2, h3, h4⟩ := h
  obtain ⟨hle, hb⟩ := h4 b hpend
  rw [Inv_def]
  refine ⟨le_refl _, ?_, ?_, ?_⟩
  · rw [withDelims_snoc, h2, take_split input start i b b (by omega) hb hc]
    congr 1
    by_cases hms : isMarkupState s = true
    · rw [if_pos (by simpa using h3.mpr hms)]
      rw [if_pos hms] at hbb
      simpa [openDelim] using hbb
    · have hodd : ¬ ps.length % 2 = 0 := fun he => hms (h3.mp he)
      rw [if_neg (by simpa using hodd)]
      rw [if_neg hms] at hbb
      simpa [closeDelim] using hbb
  · simp only [List.length_append, List.length_cons, List.length_nil]
    by_cases hms : isMarkupState s = true
    · have hev : ps.length % 2 = 0 := h3.mpr hms
      rw [hms] at hm
      simp only [Bool.not_true] at hm
      constructor
      · intro hcontra; omega
      · intro hcontra; rw [hm] at hcontra; cases hcontra
    · have hsf : isMarkupState s = false := by
        cases hmv : isMarkupState s
        · rfl
        · exact absurd hmv hms
      have hodd : ¬ ps.length % 2 = 0 := fun he => hms (h3.mp he)
      rw [hsf] at hm
      simp only [Bool.not_false] at hm
      constructor
      · intro _; exact hm
      · intro _; omega
  · intro b' hb'
    rw [hp'] at hb'
    cases hb'

theorem stepIdx_inv {input : Doc} {i : Nat} {st : LoopSt} {c : Char}
    (hc : input[i]? = some c) (h : Inv input i st) :
    Inv input (i + 1) (stepIdx input i st c) := by
  obtain ⟨s, start, ps⟩ := st
  cases s with
  | html =>
      by_cases hbr : c = '{'
      · subst hbr
        simpa [stepIdx] using Inv_pend State.html_oneOpenBracket hc h rfl rfl
      · simpa [stepIdx, hbr] using Inv_keep State.html h rfl rfl
  | html_oneOpenBracket =>
      by_cases hbr : c = '{'
      · subst hbr
        simpa [stepIdx] using Inv_emit State.code hc h rfl rfl rfl rfl
      · simpa [stepIdx, hbr] using Inv_keep State.html h rfl rfl
  | code =>
      simp only [stepIdx]
      split_ifs with h1 h2 h3 h4 h5 h6
      · subst h1; exact Inv_pend State.code_oneCloseBracket hc h rfl rfl
      · exact Inv_keep _ h rfl rfl
      · exact Inv_keep _ h rfl rfl
      · exact Inv_keep _ h rfl rfl
      · exact Inv_keep _ h rfl rfl
      · exact Inv_keep _ h rfl rfl
      · exact Inv_keep _ h rfl rfl
  | code_oneCloseBracket =>
      by_cases hbr : c = '}'
      · subst hbr
        simpa [stepIdx] using Inv_emit State.html hc h rfl rfl rfl rfl
      · simpa [stepIdx, hbr] using Inv_keep State.code h rfl rfl
  | code_string1 =>
      simp only [stepIdx]
      split_ifs
      · exact Inv_keep _ h rfl rfl
      · exact Inv_keep _ h rfl rfl
      · exact Inv_keep _ h rfl rfl
  | code_string1_backslash =>
      simpa [stepIdx] using Inv_keep State.code_string1 h rfl rfl
  | code_string2 =>
      simp only [stepIdx]
      split_ifs
      · exact Inv_keep _ h rfl rfl
      · exact Inv_keep _ h rfl rfl
      · exact Inv_keep _ h rfl rfl
  | code_string2_backslash =>
      simpa [stepIdx] using Inv_keep State.code_string2 h rfl rfl
  | code_backtick =>
      simp only [stepIdx]
      split_ifs
      · exact Inv_keep _ h rfl rfl
      · exact Inv_keep _ h rfl rfl
      · exact Inv_keep _ h rfl rfl
  | code_backtick_backslash =>
      simpa [stepIdx] using Inv_keep State.code_backtick h rfl rfl
  | code_percentOp =>
      simp only [stepIdx]
      split_ifs
      · exact Inv_keep _ h rfl rfl
      · exact Inv_keep _ h rfl rfl
  | code_comment =>
      simp only [stepIdx]
      split_ifs with h1 h2
      · subst h1; exact Inv_pend State.code_comment_oneCloseBracket hc h rfl rfl
      · exact Inv_keep _ h rfl rfl
      · exact Inv_keep _ h rfl rfl
  | code_comment_oneCloseBracket =>
      by_cases hbr : c = '}'
      · subst hbr
        simpa [stepIdx] using Inv_emit State.html hc h rfl rfl rfl rfl
      · simpa [stepIdx, hbr] using Inv_keep State.code h rfl rfl

theorem runAux_inv (input : Doc) :
    ∀ (rest : Doc) (i : Nat) (st : LoopSt),
      rest = input.drop i → i ≤ input.length → Inv input i st →
      Inv input input.length (runAux input rest i st) := by
  intro rest
  induction rest with
  | nil =>
      intro i st hrest hi hinv
      have hlen : input.length ≤ i := List.drop_eq_nil_iff.mp hrest.symm
      have heq : i = input.length := le_antisymm hi hlen
      rw [← heq]
      simpa [runAux] using hinv
  | cons c rest ih =>
      intro i st hrest hi hinv
      have hc : input[i]? = some c := by
        have hd := List.getElem?_drop input i 0
        rw [← hrest] at hd
        simpa using hd.symm
      have hlt : i < input.length := by
        by_contra hge
        have hnil : input.drop i = [] := List.drop_eq_nil_iff.mpr (by omega)
        rw [hnil] at hrest
        cases hrest
      have hrest' : rest = input.drop (i + 1) := by
        have hdd : (input.drop i).drop 1 = input.drop (i + 1) := by
          rw [List.drop_drop]
        rw [← hrest] at hdd
        simpa using hdd
      simpa [runAux] using
        ih (i + 1) (stepIdx input i st c) hrest' (by omega) (stepIdx_inv hc hinv)

theorem scanRun_inv (input : Doc) : Inv input input.length (scanRun input) := by
  refine runAux_inv input input 0 ⟨.html, 0, []⟩ (by simp) (by simp) ?_
  rw [Inv_def]
  refine ⟨le_refl 0, by simp [withDelims], by simp [isMarkupState], ?_⟩
  intro b hb
  simp [pendingBrace] at hb

theorem template_dfa_single (input : Doc) :
    template_dfa [input] =
      (if (scanRun input).state = .html ∨ (scanRun input).state = .html_oneOpenBracket then
        .ok ((scanRun input).pieces ++
          [slice input (scanRun input).pieceStartIdx
            (input.length - (scanRun input).pieceStartIdx)])
      else .error .unterminatedCode) := rfl

theorem template_dfa_ok_elim (input : Doc) (ps : List Doc)
    (h : template_dfa [input] = .ok ps) :
    ((scanRun input).state = .html ∨ (scanRun input).state = .html_oneOpenBracket) ∧
    ps = (scanRun input).pieces ++
      [slice input (scanRun input).pieceStartIdx
        (input.length - (scanRun input).pieceStartIdx)] := by
  rw [template_dfa_single] at h
  by_cases hcond :
      (scanRun input).state = .html ∨ (scanRun input).state = .html_oneOpenBracket
  · rw [if_pos hcond] at h
    refine ⟨hcond, ?_⟩
    injection h with h
    exact h.symm
  · rw [if_neg hcond] at h
    cases h

theorem Inv_def' (input : Doc) (i : Nat) (st : LoopSt) :
    Inv input i st ↔
      (st.pieceStartIdx ≤ i ∧
       withDelims 0 st.pieces = input.take st.pieceStartIdx ∧
       (st.pieces.length % 2 = 0 ↔ isMarkupState st.state = true) ∧
       (∀ b, pendingBrace st.state = some b →
         st.pieceStartIdx + 1 ≤ i ∧ input[i - 1]? = some b)) :=
  Iff.rfl

/-- Claim C1: for every document on which the scan succeeds, concatenating
the returned piece texts in order, reinserting the two-byte delimiter
`\x7b\x7b` at each markup-to-code boundary and `\x7d\x7d` at each
code-to-markup boundary, reproduces the original document byte for byte. -/
theorem scan_roundtrip (input : Doc) (ps : List Doc)
    (h : template_dfa [input] = .ok ps) :
    reassemble 0 ps = input := by
  obtain ⟨hstate, hps⟩ := template_dfa_ok_elim input ps h
  have hinv := scanRun_inv input
  rw [Inv_def'] at hinv
  obtain ⟨h1, h2, h3, h4⟩ := hinv
  rw [hps, reassemble_snoc, h2]
  have hlast : slice input (scanRun input).pieceStartIdx
      (input.length - (scanRun input).pieceStartIdx) =
      input.drop (scanRun input).pieceStartIdx := by
    unfold slice
    rw [← List.length_drop]
    exact List.take_length _
  rw [hlast, List.take_append_drop]

/-- Witness for C1 at a concrete document. -/
theorem scan_roundtrip_witness :
    template_dfa ["a\x7b\x7b1\x7d\x7db\x7b\x7b2\x7d\x7dc".toList]
        = .ok [['a'], ['1'], ['b'], ['2'], ['c']] ∧
    reassemble 0 [['a'], ['1'], ['b'], ['2'], ['c']]
        = "a\x7b\x7b1\x7d\x7db\x7b\x7b2\x7d\x7dc".toList :=
  ⟨rfl, scan_roundtrip _ _ rfl⟩

/-- Claim C2: whenever the scan succeeds the returned sequence has odd
length at least 1, and its first and last positions are markup-kind
(kinds being positional: even 0-based indices markup, odd indices code). -/
theorem scan_alternation (input : Doc) (ps : List Doc)
    (h : template_dfa [input] = .ok ps) :
    1 ≤ ps.length ∧ ps.length % 2 = 1 ∧
      pieceKind 0 = Kind.markup ∧ pieceKind (ps.length - 1) = Kind.markup := by
  obtain ⟨hstate, hps⟩ := template_dfa_ok_elim input ps h
  have hinv := scanRun_inv input
  rw [Inv_def'] at hinv
  obtain ⟨h1, h2, h3, h4⟩ := hinv
  have hmarkup : isMarkupState (scanRun input).state = true := by
    rcases hstate with hs | hs <;> rw [hs] <;> rfl
  have hev : (scanRun input).pieces.length % 2 = 0 := h3.mpr hmarkup
  have hlen : ps.length = (scanRun input).pieces.length + 1 := by
    rw [hps]; simp
  refine ⟨by omega, by omega, rfl, ?_⟩
  unfold pieceKind
  rw [if_pos (by omega)]

/-- Witness for C2 at a concrete document. -/
theorem scan_alternation_witness :
    template_dfa ["a\x7b\x7b1\x7d\x7db".toList] = .ok [['a'], ['1'], ['b']] ∧
    (1 ≤ ([['a'], ['1'], ['b']] : List Doc).length ∧
     ([['a'], ['1'], ['b']] : List Doc).length % 2 = 1 ∧
     pieceKind 0 = Kind.markup ∧
     pieceKind (([['a'], ['1'], ['b']] : List Doc).length - 1) = Kind.markup) :=
  ⟨rfl, scan_alternation "a\x7b\x7b1\x7d\x7db".toList _ rfl⟩

/-- Claim C5: the scan of a single document fails, with error
`unterminatedCode` and no piece sequence, exactly when the automaton's
state after the last byte is neither `html` nor `html_oneOpenBracket`;
ending in `html_oneOpenBracket` (an unmatched single open brace at
end-of-document) still succeeds. -/
theorem scan_unterminated_iff (input : Doc) :
    (template_dfa [input] = .error .unterminatedCode ↔
      ¬ ((scanRun input).state = .html ∨
         (scanRun input).state = .html_oneOpenBracket)) ∧
    ((scanRun input).state = .html_oneOpenBracket →
      ∃ ps, template_dfa [input] = .ok ps) := by
  constructor
  · constructor
    · intro h hcond
      rw [template_dfa_single, if_pos hcond] at h
      cases h
    · intro hcond
      rw [template_dfa_single, if_neg hcond]
  · intro hs
    refine ⟨(scanRun input).pieces ++
      [slice input (scanRun input).pieceStartIdx
        (input.length - (scanRun input).pieceStartIdx)], ?_⟩
    rw [template_dfa_single, if_pos (Or.inr hs)]

/-- Witness for C5 at concrete documents: an unterminated code block errors
and a trailing single open brace does not. -/
theorem scan_unterminated_iff_witness :
    template_dfa ["a\x7b\x7bb".toList] = .error .unterminatedCode ∧
    (∃ ps, template_dfa ["a\x7b".toList] = .ok ps) :=
  ⟨(scan_unterminated_iff "a\x7b\x7bb".toList).1.mpr (by decide),
   (scan_unterminated_iff "a\x7b".toList).2 rfl⟩

/-- Claim C6: any input that is not exactly one text value is rejected
with `invalidInput`; no piece is produced. -/
theorem invalid_input_scan (x : List Doc) (h : x.length ≠ 1) :
    template_dfa x = .error .invalidInput := by
  cases x with
  | nil => rfl
  | cons a t =>
      cases t with
      | nil => simp at h
      | cons b t' => rfl

/-- Witness for C6: the empty input list is rejected. -/
theorem invalid_input_scan_witness :
    ([] : List Doc).length ≠ 1 ∧ template_dfa [] = .error .invalidInput :=
  ⟨by decide, invalid_input_scan [] (by decide)⟩

/-- Claim C7: on the specific input `x\x7b\x7b \x60\x7d\x7d\x60 \x7d\x7dy`
the scan succeeds with exactly the pieces `x`, `` \x60\x7d\x7d\x60 `` (with
surrounding spaces) and `y`: the `\x7d\x7d` inside the backtick-quoted
identifier does not close the code region, the real `\x7d\x7d` after it
does. -/
theorem quoted_brace_example :
    template_dfa ["x\x7b\x7b `\x7d\x7d` \x7d\x7dy".toList] =
      .ok ["x".toList, " `\x7d\x7d` ".toList, "y".toList] := rfl

/-- Claim C8: in the three escape states the next byte is consumed as a
literal whatever it is, returning to the matching quoted state; hence a
backslash-preceded closing quote (second triple) never terminates the
quoted region. -/
theorem escape_byte_literal (input : Doc) (i start : Nat) (ps : List Doc) (c : Char) :
    (stepIdx input i ⟨.code_string1_backslash, start, ps⟩ c
        = ⟨.code_string1, start, ps⟩ ∧
     stepIdx input i ⟨.code_string2_backslash, start, ps⟩ c
        = ⟨.code_string2, start, ps⟩ ∧
     stepIdx input i ⟨.code_backtick_backslash, start, ps⟩ c
        = ⟨.code_backtick, start, ps⟩) ∧
    (stepIdx input (i + 1) (stepIdx input i ⟨.code_string1, start, ps⟩ bslash) quote1
        = ⟨.code_string1, start, ps⟩ ∧
     stepIdx input (i + 1) (stepIdx input i ⟨.code_string2, start, ps⟩ bslash) quote2
        = ⟨.code_string2, start, ps⟩ ∧
     stepIdx input (i + 1) (stepIdx input i ⟨.code_backtick, start, ps⟩ bslash) btick
        = ⟨.code_backtick, start, ps⟩) :=
  ⟨⟨rfl, rfl, rfl⟩, ⟨rfl, rfl, rfl⟩⟩

/-- Claim C10: the empty document scans successfully to exactly one piece,
the empty markup string. -/
theorem empty_document_scan : template_dfa [([] : Doc)] = .ok [[]] := rfl

/-- Counterexample to C3 as stated: in the document `a\x7b\x7b#\x7d\x7db`
the `\x7d\x7d` is reached while the scanner is inside a line comment
(opened by `#`), yet the scan succeeds with three pieces — the comment's
`\x7d\x7d` did close the code region, contradicting the claim's "or a
line comment" part. -/
theorem comment_blind_counterexample :
    template_dfa ["a\x7b\x7b#\x7d\x7db".toList] = .ok [['a'], ['#'], ['b']] := rfl

/-- Claim C3 (amended): a `\x7d` byte seen while the scanner is inside a
single-quoted string, a double-quoted string, a backtick-quoted identifier,
or a `%...%` percent-operator token leaves the automaton's entire loop
state unchanged, so neither it nor a following `\x7d` can close the code
region; a line comment, by contrast, is not protected. -/
theorem closeBrace_blind_contexts (input : Doc) (i start : Nat) (ps : List Doc) :
    stepIdx input i ⟨.code_string1, start, ps⟩ '}' = ⟨.code_string1, start, ps⟩ ∧
    stepIdx input i ⟨.code_string2, start, ps⟩ '}' = ⟨.code_string2, start, ps⟩ ∧
    stepIdx input i ⟨.code_backtick, start, ps⟩ '}' = ⟨.code_backtick, start, ps⟩ ∧
    stepIdx input i ⟨.code_percentOp, start, ps⟩ '}' = ⟨.code_percentOp, start, ps⟩ :=
  ⟨rfl, rfl, rfl, rfl⟩

/-- Counterexample to C4 as stated: from `code_comment_oneCloseBracket`
the byte `x` sends the automaton to state `code`, not back to
`code_comment` as the claim says. -/
theorem comment_oneCloseBracket_default_counterexample :
    stepIdx [] 0 ⟨.code_comment_oneCloseBracket, 0, []⟩ 'x' = ⟨.code, 0, []⟩ ∧
    State.code ≠ State.code_comment :=
  ⟨rfl, by intro h; cases h⟩

/-- Claim C4 (amended): in state `code_comment_oneCloseBracket`, a `\x7d`
byte closes the current code piece and enters markup; any other byte sends
the automaton to state `code` (not back to `code_comment`). -/
theorem comment_oneCloseBracket_step (input : Doc) (i start : Nat) (ps : List Doc) (c : Char) :
    (c = '}' → stepIdx input i ⟨.code_comment_oneCloseBracket, start, ps⟩ c
        = ⟨.html, i + 1, ps ++ [slice input start (i - start - 1)]⟩) ∧
    (c ≠ '}' → stepIdx input i ⟨.code_comment_oneCloseBracket, start, ps⟩ c
        = ⟨.code, start, ps⟩) := by
  constructor
  · intro hc; subst hc; rfl
  · intro hc; simp [stepIdx, hc]

/-- Witness for C4 (amended) at concrete bytes. -/
theorem comment_oneCloseBracket_step_witness :
    stepIdx [] 0 ⟨.code_comment_oneCloseBracket, 0, []⟩ '}' = ⟨.html, 1, [[]]⟩ ∧
    stepIdx [] 0 ⟨.code_comment_oneCloseBracket, 0, []⟩ 'y' = ⟨.code, 0, []⟩ :=
  ⟨(comment_oneCloseBracket_step [] 0 0 [] '}').1 rfl,
   (comment_oneCloseBracket_step [] 0 0 [] 'y').2 (by decide)⟩

theorem noDouble_tail (a c : Char) (l : Doc)
    (h : noDouble a (c :: l) = true) : noDouble a l = true := by
  cases l with
  | nil => rfl
  | cons d l' =>
      simp only [noDouble, Bool.and_eq_true] at h
      exact h.2

theorem noDouble_head (a d : Char) (l : Doc)
    (h : noDouble a (a :: d :: l) = true) : ¬ (d = a) := by
  intro he
  subst he
  simp [noDouble] at h

theorem runAux_noDouble (input : Doc) : ∀ (rest : Doc) (i : Nat),
    (noDouble '{' rest = true →
      MarkupIdle (runAux input rest i ⟨.html, 0, []⟩)) ∧
    (rest.head? ≠ some '{' → noDouble '{' rest = true →
      MarkupIdle (runAux input rest i ⟨.html_oneOpenBracket, 0, []⟩)) := by
  intro rest
  induction rest with
  | nil =>
      intro i
      exact ⟨fun _ => ⟨Or.inl rfl, rfl, rfl⟩, fun _ _ => ⟨Or.inr rfl, rfl, rfl⟩⟩
  | cons c rest ih =>
      intro i
      constructor
      · intro h
        by_cases hc : c = '{'
        · subst hc
          have hstep : stepIdx input i ⟨.html, 0, []⟩ '{'
              = ⟨.html_oneOpenBracket, 0, []⟩ := rfl
          simp only [runAux]
          rw [hstep]
          cases rest with
          | nil => exact ⟨Or.inr rfl, rfl, rfl⟩
          | cons d rest' =>
              have hd : ¬ (d = '{') := noDouble_head '{' d rest' h
              exact (ih (i + 1)).2 (by simp [hd]) (noDouble_tail _ _ _ h)
        · have hstep : stepIdx input i ⟨.html, 0, []⟩ c = ⟨.html, 0, []⟩ := by
            simp [stepIdx, hc]
          simp only [runAux]
          rw [hstep]
          exact (ih (i + 1)).1 (noDouble_tail _ _ _ h)
      · intro hhead h
        have hc : ¬ (c = '{') := fun he => hhead (by simp [he])
        have hstep : stepIdx input i ⟨.html_oneOpenBracket, 0, []⟩ c
            = ⟨.html, 0, []⟩ := by
          simp [stepIdx, hc]
        simp only [runAux]
        rw [hstep]
        exact (ih (i + 1)).1 (noDouble_tail _ _ _ h)

/-- Claim C9: a document containing no `\x7b\x7b` occurrence and no
`\x7d\x7d` occurrence scans successfully to exactly one markup piece equal
to the whole document. -/
theorem literal_only_scan (input : Doc)
    (h1 : noDouble '{' input = true) (_h2 : noDouble '}' input = true) :
    template_dfa [input] = .ok [input] := by
  have hm : MarkupIdle (scanRun input) := (runAux_noDouble input input 0).1 h1
  obtain ⟨hs, hstart, hpieces⟩ := hm
  rw [template_dfa_single, if_pos hs, hpieces, hstart]
  simp [slice]

/-- Witness for C9 at a concrete document containing single braces. -/
theorem literal_only_scan_witness :
    noDouble '{' "a\x7bb\x7dc".toList = true ∧
    noDouble '}' "a\x7bb\x7dc".toList = true ∧
    template_dfa ["a\x7bb\x7dc".toList] = .ok ["a\x7bb\x7dc".toList] :=
  ⟨rfl, rfl, literal_only_scan _ rfl rfl⟩

end TemplateDfa
